import Mathlib

/-!
Verification of the kokki flag-quiz engine.

The definitions below are a shallow embedding of the quiz logic of the
repository: the country data service (difficulty filtering and wrong-answer
generation) and the game module `game.js` (session state, question
sequencing, answer checking, scoring).  Randomness (`Math.random`) is made
explicit as a parameter: each call site receives a `Nat → Nat` choice
function (for Fisher–Yates shuffles, the draw at loop index `i` is
`r i % (i + 1)`) or a single `Nat` (for random element picks, taken modulo
the list length).  JavaScript numbers are modelled as `Nat`/`Int`/`ℚ` with
exact arithmetic, thrown-and-caught errors as explicit result values.
-/

namespace Kokki

/-- A country record, restricted to the fields the quiz logic reads:
`cca2` (the 2-letter id), `common` (the display name `name.common`),
`region` (difficulty filtering) and `population` (pool ordering). -/
structure Country where
  cca2 : String
  common : String
  region : String
  population : Nat
  deriving DecidableEq, Repr

/-- One in-place swap of a Fisher–Yates pass:
JS `[a[i], a[j]] = [a[j], a[i]]`.  Out-of-range indices leave the
list unchanged (the loop below only produces in-range indices). -/
def swapIdx (l : List α) (i j : Nat) : List α :=
  match l[i]?, l[j]? with
  | some a, some b => (l.set i b).set j a
  | _, _ => l

/-- The Fisher–Yates loop `for (i = len-1; i > 0; i--) swap(i, rand(i+1))`,
counting the loop variable down from `i`. -/
def fyLoop (r : Nat → Nat) : Nat → List α → List α
  | 0, l => l
  | i + 1, l => fyLoop r i (swapIdx l (i + 1) (r (i + 1) % (i + 2)))

/-- `shuffleArray` from `game.js` (the same loop is inlined in
`generateWrongAnswers` in the country service): copy the array, then run
Fisher–Yates from the last index down to 1. -/
def shuffleArray (array : List α) (r : Nat → Nat) : List α :=
  fyLoop r (array.length - 1) array

/-! ### Country data service (difficulty filtering, wrong answers) -/

namespace CountryService

/-- One tier of the country service's difficulty table: pool cap,
region list (`none` is the sentinel string given for no
restriction), and question count. -/
structure DifficultyConfig where
  countries : Nat
  regions : Option (List String)
  questionsCount : Nat
  deriving DecidableEq, Repr

/-- The country service's `DIFFICULTY_CONFIG` object, as a lookup over its
three keys; any other key reads as `undefined` (`none` here). -/
def DIFFICULTY_CONFIG (difficulty : String) : Option DifficultyConfig :=
  if difficulty = "beginner" then
    some { countries := 25, regions := some ["Europe", "Americas"], questionsCount := 10 }
  else if difficulty = "intermediate" then
    some { countries := 60, regions := some ["Europe", "Asia", "Americas", "Oceania"],
           questionsCount := 15 }
  else if difficulty = "advanced" then
    some { countries := 150, regions := none, questionsCount := 20 }
  else
    none

/-- The beginner entry of `DIFFICULTY_CONFIG`, the fallback of
`DIFFICULTY_CONFIG[difficulty] || DIFFICULTY_CONFIG.beginner`. -/
def beginnerConfig : DifficultyConfig :=
  { countries := 25, regions := some ["Europe", "Americas"], questionsCount := 10 }

/-- `getCountriesByDifficulty` from the country service: filter by the
tier's regions (skipped for the sentinel), sort by descending population —
but only when the difficulty string is literally beginner or
intermediate — and truncate to the tier's country cap.  The JS engine's
`Array.prototype.sort` is stable, modelled by `List.mergeSort`. -/
def getCountriesByDifficulty (countries : List Country) (difficulty : String) : List Country :=
  if countries.isEmpty then []
  else
    let config := (DIFFICULTY_CONFIG difficulty).getD beginnerConfig
    let filteredCountries :=
      match config.regions with
      | none => countries
      | some regions => countries.filter (fun c => regions.contains c.region)
    let sortedCountries :=
      if difficulty = "beginner" || difficulty = "intermediate" then
        filteredCountries.mergeSort (fun a b => decide (b.population ≤ a.population))
      else filteredCountries
    if config.countries < sortedCountries.length then
      sortedCountries.take config.countries
    else sortedCountries

/-- `getRandomCountry`: a uniformly random element, `null` on an empty
list. -/
def getRandomCountry (countries : List Country) (r : Nat) : Option Country :=
  if h : countries.length = 0 then none
  else some (countries.get ⟨r % countries.length, Nat.mod_lt r (Nat.pos_of_ne_zero h)⟩)

/-- `generateWrongAnswers`: distractor generation.  Candidates are the
pool minus the correct country minus used ids; if fewer than `count`
remain the used-id exclusion is dropped.  The shuffle is the inlined
Fisher–Yates loop, identical to `shuffleArray`. -/
def generateWrongAnswers (correctCountry : Country) (allCountries : List Country)
    (count : Nat) (usedCountries : List String) (r : Nat → Nat) : List Country :=
  if allCountries.length < count + 1 then []
  else
    let availableCountries := allCountries.filter
      (fun c => c.cca2 != correctCountry.cca2 && !(usedCountries.contains c.cca2))
    let countriesToUse :=
      if count ≤ availableCountries.length then availableCountries
      else allCountries.filter (fun c => c.cca2 != correctCountry.cca2)
    (shuffleArray countriesToUse r).take count

end CountryService

/-- Modelled from the spec: the section 4.1 pool-construction pipeline
for a region-restricted tier — filter the reference set to the given
regions, stably sort the whole filtered set by descending population, and
truncate to the pool size.  Used to compare the source's
`getCountriesByDifficulty` against the spec's description per tier. -/
def specSortedPool (pool : List Country) (regions : List String) (cap : Nat) : List Country :=
  let f := pool.filter (fun c => regions.contains c.region)
  let sorted := f.mergeSort (fun a b => decide (b.population ≤ a.population))
  if cap < sorted.length then sorted.take cap else sorted

/-! ### Game module (`game.js`) -/

namespace GameJs

/-- One tier of the inline difficulty table of `game.js` (which also
carries a display name and description). -/
structure DifficultyConfig where
  countries : Nat
  regions : Option (List String)
  questionsCount : Nat
  name : String
  description : String
  deriving DecidableEq, Repr

/-- The `DIFFICULTY_CONFIG` object inlined in `getDifficultyConfig` of
`game.js` (its region lists differ from the country service's table). -/
def DIFFICULTY_CONFIG (difficulty : String) : Option DifficultyConfig :=
  if difficulty = "beginner" then
    some { countries := 25, regions := some ["Europe", "North America"], questionsCount := 10,
           name := "初級", description := "有名な国の国旗" }
  else if difficulty = "intermediate" then
    some { countries := 60,
           regions := some ["Europe", "Asia", "North America", "South America"],
           questionsCount := 15, name := "中級", description := "より多くの国の国旗" }
  else if difficulty = "advanced" then
    some { countries := 150, regions := none, questionsCount := 20,
           name := "上級", description := "世界中の国の国旗" }
  else
    none

/-- The beginner entry of the `game.js` table. -/
def beginnerConfig : DifficultyConfig :=
  { countries := 25, regions := some ["Europe", "North America"], questionsCount := 10,
    name := "初級", description := "有名な国の国旗" }

/-- `getDifficultyConfig`: look up the tier, fall back to beginner on an
unknown difficulty string. -/
def getDifficultyConfig (difficulty : String) : DifficultyConfig :=
  (DIFFICULTY_CONFIG difficulty).getD beginnerConfig

/-- The mutable `gameState` singleton of `game.js`.
`correctOptionIndex` is an `Int` because JS `findIndex` returns `-1`
when no element matches. -/
structure GameState where
  currentQuestion : Nat
  totalQuestions : Nat
  score : Nat
  difficulty : String
  countries : List Country
  currentCountry : Option Country
  options : List Country
  correctOptionIndex : Int
  isGameActive : Bool
  isAnswered : Bool
  usedCountries : List String
  deriving DecidableEq, Repr

/-- The initial value of the `gameState` object literal. -/
def gameStateInit : GameState :=
  { currentQuestion := 0, totalQuestions := 10, score := 0, difficulty := "beginner",
    countries := [], currentCountry := none, options := [], correctOptionIndex := 0,
    isGameActive := false, isAnswered := false, usedCountries := [] }

/-- `resetGameState`: restore every field to its initial value. -/
def resetGameState : GameState :=
  { currentQuestion := 0, totalQuestions := 10, score := 0, difficulty := "beginner",
    countries := [], currentCountry := none, options := [], correctOptionIndex := 0,
    isGameActive := false, isAnswered := false, usedCountries := [] }

/-- The random draws one question-generation pass consumes: the country
pick, and the choice functions of the two Fisher–Yates shuffles (wrong
answers, then options). -/
structure Rand where
  pick : Nat
  wrongShuffle : Nat → Nat
  optShuffle : Nat → Nat

/-- JS `Array.prototype.findIndex`: the first matching index, `-1` when
none matches (`List.findIdx` returns the length in that case). -/
def findIndexJS (p : α → Bool) (l : List α) : Int :=
  if l.findIdx p < l.length then (l.findIdx p : Int) else -1

/-- `getRandomUnusedCountry`: pick uniformly among pool entries whose id
is unused; when all are used, clear the used list (a mutation of
`gameState.usedCountries`, returned here as the second component) and pick
from the whole pool. -/
def getRandomUnusedCountry (countries : List Country) (usedCountries : List String)
    (r : Nat) : Option Country × List String :=
  if countries.isEmpty then (none, usedCountries)
  else
    let availableCountries := countries.filter (fun c => !(usedCountries.contains c.cca2))
    if h : availableCountries.length = 0 then
      (CountryService.getRandomCountry countries r, [])
    else
      (some (availableCountries.get
        ⟨r % availableCountries.length, Nat.mod_lt r (Nat.pos_of_ne_zero h)⟩),
       usedCountries)

/-- `generateAnswerOptions`: 3 wrong answers from the service, prepend the
correct country, shuffle, and recompute the correct index by id.  The two
`throw`s are modelled as `none` (they are caught by `nextQuestion`). -/
def generateAnswerOptions (correctCountry : Country) (allCountries : List Country)
    (usedCountries : List String) (rw ro : Nat → Nat) : Option (List Country × Int) :=
  if allCountries.length < 4 then none
  else
    let wrongAnswers :=
      CountryService.generateWrongAnswers correctCountry allCountries 3 usedCountries rw
    if wrongAnswers.length < 3 then none
    else
      let options := correctCountry :: wrongAnswers
      let shuffledOptions := shuffleArray options ro
      let correctIndex := findIndexJS (fun c => c.cca2 == correctCountry.cca2) shuffledOptions
      some (shuffledOptions, correctIndex)

/-- `endGame`: deactivate the session and emit final results (the display
payload is UI-only and not part of the state). -/
def endGame (s : GameState) : GameState :=
  { s with isGameActive := false }

/-- `nextQuestion`: guard, clear the answered flag, pick an unused
country, record its id, then build and install the options.  The errors a
missing country or failed option generation raise are caught inside
`nextQuestion` itself, leaving the state mutated up to that point. -/
def nextQuestion (s : GameState) (r : Rand) : GameState :=
  if !s.isGameActive || s.totalQuestions ≤ s.currentQuestion then endGame s
  else
    let s1 := { s with isAnswered := false }
    match getRandomUnusedCountry s1.countries s1.usedCountries r.pick with
    | (none, used1) => { s1 with currentCountry := none, usedCountries := used1 }
    | (some c, used1) =>
      let s2 := { s1 with currentCountry := some c, usedCountries := used1 ++ [c.cca2] }
      match generateAnswerOptions c s2.countries s2.usedCountries r.wrongShuffle r.optShuffle with
      | none => s2
      | some (opts, idx) => { s2 with options := opts, correctOptionIndex := idx }

/-- Errors `startGame` catches (it shows a message and returns to the
start screen; the partial state mutations are kept). -/
inductive GameError where
  | invalidDifficulty
  | insufficientPool
  deriving DecidableEq, Repr

/-- `startGame`: validate the difficulty, reset the state, store
difficulty, question count and the filtered pool, refuse pools smaller
than 4, then activate and generate the first question.  The fetched
country list is the explicit `allCountries` argument. -/
def startGame (s : GameState) (difficulty : String) (allCountries : List Country)
    (r : Rand) : GameState × Option GameError :=
  if !(["beginner", "intermediate", "advanced"].contains difficulty) then
    (s, some GameError.invalidDifficulty)
  else
    let s1 := { resetGameState with
                difficulty := difficulty,
                totalQuestions := (getDifficultyConfig difficulty).questionsCount,
                countries := CountryService.getCountriesByDifficulty allCountries difficulty }
    if s1.countries.length < 4 then (s1, some GameError.insufficientPool)
    else (nextQuestion { s1 with isGameActive := true } r, none)

/-- `checkAnswer`: ignore the call when already answered or inactive;
otherwise mark answered, compare against `correctOptionIndex` and score a
correct answer.  Advancing is the separate delayed step below. -/
def checkAnswer (s : GameState) (selectedIndex : Int) : GameState :=
  if s.isAnswered || !s.isGameActive then s
  else
    let s1 := { s with isAnswered := true }
    if selectedIndex = s.correctOptionIndex then { s1 with score := s1.score + 1 }
    else s1

/-- The `setTimeout` continuation of `checkAnswer`: increment the question
counter, then either generate the next question or end the game. -/
def advanceQuestion (s : GameState) (r : Rand) : GameState :=
  let s1 := { s with currentQuestion := s.currentQuestion + 1 }
  if s1.currentQuestion < s1.totalQuestions then nextQuestion s1 r else endGame s1

/-- `calculateProgress`: rounded completion percentage (`Math.round` is
round-half-up, which is Mathlib's `round`). -/
def calculateProgress (s : GameState) : Int :=
  if s.totalQuestions = 0 then 0
  else round ((s.currentQuestion : ℚ) / (s.totalQuestions : ℚ) * 100)

/-- `calculateAccuracy`: the final accuracy, dividing by the number of
answered questions, 0 before any question. -/
def calculateAccuracy (s : GameState) : Int :=
  if s.currentQuestion = 0 then 0
  else round ((s.score : ℚ) / (s.currentQuestion : ℚ) * 100)

/-- `calculateCurrentAccuracy`: the live accuracy shown mid-session,
counting the in-progress question in the denominator. -/
def calculateCurrentAccuracy (s : GameState) : Int :=
  let questionsAnswered := s.currentQuestion + 1
  if questionsAnswered = 0 then 0
  else round ((s.score : ℚ) / (questionsAnswered : ℚ) * 100)

/-- `validateGameState`: the defensive consistency check of `game.js`. -/
def validateGameState (s : GameState) : Bool :=
  decide (0 ≤ s.score) && decide (0 ≤ s.currentQuestion) &&
  decide (0 < s.totalQuestions) && decide (s.score ≤ s.currentQuestion) &&
  decide (s.currentQuestion ≤ s.totalQuestions)

/-- The states a session can pass through, driven by the calls the UI
layer makes: initial page load, `startGame` (also covering
`restartSameDifficulty`), `checkAnswer` on a click, the delayed advance
`checkAnswer` schedules (which can only fire on the just-answered active
question), and `restartGame`. -/
inductive Reachable : GameState → Prop where
  | init : Reachable gameStateInit
  | start (s : GameState) (d : String) (pool : List Country) (r : Rand) :
      Reachable s → Reachable (startGame s d pool r).1
  | answer (s : GameState) (idx : Int) : Reachable s → Reachable (checkAnswer s idx)
  | advance (s : GameState) (r : Rand) : Reachable s → s.isAnswered = true →
      s.isGameActive = true → Reachable (advanceQuestion s r)
  | restart (s : GameState) : Reachable s → Reachable resetGameState

/-- The state invariant: the score never exceeds the question counter by
more than the pending answered flag, the counter stays within the session
length, an active session is always on an in-range question, and the used
ids are distinct ids of pool countries. -/
def Inv (s : GameState) : Prop :=
  s.score ≤ s.currentQuestion + (if s.isAnswered then 1 else 0) ∧
  s.currentQuestion ≤ s.totalQuestions ∧
  (s.isGameActive = true → s.currentQuestion < s.totalQuestions) ∧
  s.usedCountries.Nodup ∧
  s.usedCountries ⊆ s.countries.map Country.cca2

end GameJs

/-! ### Concrete fixtures used by the witnesses and counterexamples -/

/-- A small European country fixture. -/
def cA : Country := { cca2 := "AA", common := "Astonia", region := "Europe", population := 1 }

/-- A second European fixture with a larger population. -/
def cB : Country := { cca2 := "BB", common := "Bretonia", region := "Europe", population := 2 }

/-- An Asian fixture. -/
def cC : Country := { cca2 := "CC", common := "Cambria", region := "Asia", population := 3 }

/-- An African fixture. -/
def cD : Country := { cca2 := "DD", common := "Dorne", region := "Africa", population := 4 }

/-- A three-country pool, too small for a session. -/
def pool3 : List Country := [cA, cB, cC]

/-- A four-country pool with pairwise-distinct ids. -/
def pool4 : List Country := [cA, cB, cC, cD]

/-- Deterministic randomness: every draw picks index 0. -/
def rand0 : GameJs.Rand :=
  { pick := 0, wrongShuffle := fun _ => 0, optShuffle := fun _ => 0 }

/-- An active session state whose four-country pool is fully used, a
fixture for the wrap-around witness. -/
def sAllUsed : GameJs.GameState :=
  { GameJs.gameStateInit with
    isGameActive := true
    countries := pool4
    usedCountries := ["AA", "BB", "CC", "DD"] }

/-! ### Shuffle permutation lemmas -/

/-- Moving the head into position `j` (whose element `b` moves to the
front) permutes the list. -/
theorem headSwap_perm : ∀ (t : List α) (j : Nat) (x b : α),
    t[j]? = some b → (b :: t.set j x).Perm (x :: t) := by
  intro t
  induction t with
  | nil => intro j x b h; simp at h
  | cons y t ih =>
    intro j x b h
    cases j with
    | zero =>
      simp only [List.getElem?_cons_zero, Option.some.injEq] at h
      subst h
      simpa using List.Perm.swap x y t
    | succ k =>
      simp only [List.getElem?_cons_succ] at h
      have h1 : (b :: y :: t.set k x).Perm (y :: b :: t.set k x) := List.Perm.swap y b _
      have h2 : (y :: b :: t.set k x).Perm (y :: x :: t) := (ih k x b h).cons y
      have h3 : (y :: x :: t).Perm (x :: y :: t) := List.Perm.swap x y t
      exact (h1.trans h2).trans h3

/-- Writing `l[j] := l[i]` after `l[i] := l[j]` permutes the list. -/
theorem set_set_perm : ∀ (l : List α) (i j : Nat) (a b : α),
    l[i]? = some a → l[j]? = some b → ((l.set i b).set j a).Perm l := by
  intro l
  induction l with
  | nil => intro i j a b ha _; simp at ha
  | cons x t ih =>
    intro i j a b ha hb
    cases i with
    | zero =>
      simp only [List.getElem?_cons_zero, Option.some.injEq] at ha
      subst ha
      cases j with
      | zero =>
        simp only [List.getElem?_cons_zero, Option.some.injEq] at hb
        subst hb
        simp
      | succ k =>
        simp only [List.getElem?_cons_succ] at hb
        simpa using headSwap_perm t k x b hb
    | succ m =>
      simp only [List.getElem?_cons_succ] at ha
      cases j with
      | zero =>
        simp only [List.getElem?_cons_zero, Option.some.injEq] at hb
        subst hb
        simpa using headSwap_perm t m x a ha
      | succ k =>
        simp only [List.getElem?_cons_succ] at hb
        simpa using (ih m k a b ha hb).cons x

/-- A single Fisher–Yates swap permutes the list. -/
theorem swapIdx_perm (l : List α) (i j : Nat) : (swapIdx l i j).Perm l := by
  unfold swapIdx
  cases hi : l[i]? with
  | none => simp
  | some a =>
    cases hj : l[j]? with
    | none => simp
    | some b => simpa using set_set_perm l i j a b hi hj

/-- The whole Fisher–Yates loop permutes the list. -/
theorem fyLoop_perm (r : Nat → Nat) : ∀ (i : Nat) (l : List α), (fyLoop r i l).Perm l := by
  intro i
  induction i with
  | zero => intro l; exact List.Perm.refl l
  | succ n ih =>
    intro l
    exact (ih _).trans (swapIdx_perm l (n + 1) (r (n + 1) % (n + 2)))

/-- `shuffleArray` returns a permutation of its input, for every choice of
randomness. -/
theorem shuffleArray_perm (array : List α) (r : Nat → Nat) :
    (shuffleArray array r).Perm array :=
  fyLoop_perm r (array.length - 1) array

/-! ### Distractor generator lemmas -/

namespace CountryService

/-- A list with no duplicates whose entries are all equal to `v` has at
most one entry. -/
theorem length_le_one_of_nodup_allEq {l : List α} (hnd : l.Nodup)
    (hall : ∀ x ∈ l, x = v) : l.length ≤ 1 := by
  match l with
  | [] => simp
  | [x] => simp
  | x :: y :: t =>
    exfalso
    have hx : x = v := hall x (by simp)
    have hy : y = v := hall y (by simp)
    have : x ≠ y := by
      intro h
      subst h
      exact (List.nodup_cons.mp hnd).1 (by simp)
    exact this (hx.trans hy.symm)

/-- In a pool with pairwise-distinct ids, removing one id keeps at least
`length - 1` records. -/
theorem length_filter_ne_ge {pool : List Country} (hnd : (pool.map Country.cca2).Nodup)
    (v : String) :
    pool.length - 1 ≤ (pool.filter (fun c => c.cca2 != v)).length := by
  have hsplit := @List.length_eq_length_filter_add Country pool (fun c => c.cca2 != v)
  have hle : (pool.filter (fun c => !(c.cca2 != v))).length ≤ 1 := by
    have hnd2 : ((pool.filter (fun c => !(c.cca2 != v))).map Country.cca2).Nodup :=
      ((List.filter_sublist pool).map Country.cca2).nodup hnd
    have hlen : ((pool.filter (fun c => !(c.cca2 != v))).map Country.cca2).length
        = (pool.filter (fun c => !(c.cca2 != v))).length := List.length_map _ _
    rw [← hlen]
    apply length_le_one_of_nodup_allEq hnd2
    intro x hx
    obtain ⟨c, hc, rfl⟩ := List.mem_map.mp hx
    have := (List.mem_filter.mp hc).2
    simpa using this
  omega

/-- Behaviour of `generateWrongAnswers` on a pool with pairwise-distinct
ids of size at least `count + 1`: exactly `count` records, none with the
correct country's id, their ids pairwise distinct; they are drawn from the
strict candidate set when it is big enough, and from the pool minus the
correct country otherwise. -/
theorem generateWrongAnswers_spec (correctCountry : Country) (allCountries : List Country)
    (count : Nat) (usedCountries : List String) (r : Nat → Nat)
    (hnd : (allCountries.map Country.cca2).Nodup)
    (hlen : count + 1 ≤ allCountries.length) :
    (generateWrongAnswers correctCountry allCountries count usedCountries r).length = count ∧
    (∀ c ∈ generateWrongAnswers correctCountry allCountries count usedCountries r,
      c.cca2 ≠ correctCountry.cca2) ∧
    ((generateWrongAnswers correctCountry allCountries count usedCountries r).map
      Country.cca2).Nodup ∧
    (count ≤ (allCountries.filter
        (fun c => c.cca2 != correctCountry.cca2 && !(usedCountries.contains c.cca2))).length →
      ∀ c ∈ generateWrongAnswers correctCountry allCountries count usedCountries r,
        c ∈ allCountries.filter
          (fun c => c.cca2 != correctCountry.cca2 && !(usedCountries.contains c.cca2))) ∧
    ((allCountries.filter
        (fun c => c.cca2 != correctCountry.cca2 && !(usedCountries.contains c.cca2))).length
          < count →
      ∀ c ∈ generateWrongAnswers correctCountry allCountries count usedCountries r,
        c ∈ allCountries.filter (fun c => c.cca2 != correctCountry.cca2)) := by
  have hguard : ¬ allCountries.length < count + 1 := by omega
  set A := allCountries.filter
    (fun c => c.cca2 != correctCountry.cca2 && !(usedCountries.contains c.cca2)) with hA
  set B := allCountries.filter (fun c => c.cca2 != correctCountry.cca2) with hB
  set ctu := if count ≤ A.length then A else B with hctu
  have hres : generateWrongAnswers correctCountry allCountries count usedCountries r
      = (shuffleArray ctu r).take count := by
    rw [generateWrongAnswers]
    simp only [hguard, if_false]
  have hperm : (shuffleArray ctu r).Perm ctu := shuffleArray_perm ctu r
  have hBlen : count ≤ B.length := by
    have := length_filter_ne_ge hnd correctCountry.cca2
    rw [← hB] at this
    omega
  have hctulen : count ≤ ctu.length := by
    rw [hctu]
    split
    · omega
    · exact hBlen
  have hsub : ∀ c ∈ (shuffleArray ctu r).take count, c ∈ ctu := by
    intro c hc
    exact hperm.mem_iff.mp (List.mem_of_mem_take hc)
  have hctuB : ∀ c ∈ ctu, c.cca2 ≠ correctCountry.cca2 := by
    intro c hc
    rw [hctu] at hc
    split at hc
    · have := (List.mem_filter.mp (hA ▸ hc)).2
      simp at this
      exact this.1
    · have := (List.mem_filter.mp (hB ▸ hc)).2
      simpa using this
  refine ⟨?_, ?_, ?_, ?_, ?_⟩
  · rw [hres, List.length_take, hperm.length_eq]
    omega
  · intro c hc
    rw [hres] at hc
    exact hctuB c (hsub c hc)
  · rw [hres]
    have hctund : (ctu.map Country.cca2).Nodup := by
      rw [hctu]
      split
      · exact ((List.filter_sublist allCountries).map Country.cca2).nodup hnd
      · exact ((List.filter_sublist allCountries).map Country.cca2).nodup hnd
    have hshufnd : ((shuffleArray ctu r).map Country.cca2).Nodup :=
      ((hperm.map Country.cca2).nodup_iff).mpr hctund
    exact ((List.take_sublist count (shuffleArray ctu r)).map Country.cca2).nodup hshufnd
  · intro hAlen c hc
    rw [hres] at hc
    have := hsub c hc
    rw [hctu] at this
    rw [if_pos hAlen] at this
    exact this
  · intro hAlen c hc
    rw [hres] at hc
    have := hsub c hc
    rw [hctu] at this
    rw [if_neg (by omega)] at this
    exact this

end CountryService

/-! ### Session state machine lemmas and the claims -/

namespace GameJs

/-- Every difficulty tier, including the fallback, has a positive
question count. -/
theorem questionsCount_pos (difficulty : String) :
    0 < (getDifficultyConfig difficulty).questionsCount := by
  unfold getDifficultyConfig DIFFICULTY_CONFIG beginnerConfig
  repeat' split
  all_goals simp

/-- What `getRandomUnusedCountry` can return: `none` only keeps the used
list; a pick is a pool member, and the returned used list is either the
cleared one or the unchanged one not containing the pick. -/
theorem getRandomUnusedCountry_spec (countries : List Country) (used : List String)
    (r : Nat) :
    (∀ u, getRandomUnusedCountry countries used r = (none, u) → u = used) ∧
    (∀ c u, getRandomUnusedCountry countries used r = (some c, u) →
      c ∈ countries ∧ (u = [] ∨ (u = used ∧ used.contains c.cca2 = false))) := by
  unfold getRandomUnusedCountry
  split
  · constructor
    · intro u h
      simp only [Prod.mk.injEq] at h
      exact h.2.symm
    · intro c u h
      simp only [Prod.mk.injEq] at h
      exact absurd h.1 (by simp)
  · rename_i hne
    dsimp only
    split
    · rename_i hzero
      constructor
      · intro u h
        rw [CountryService.getRandomCountry] at h
        split at h
        · rename_i hlen
          exact absurd (List.isEmpty_iff_length_eq_zero.mpr hlen) hne
        · simp at h
      · intro c u h
        rw [CountryService.getRandomCountry] at h
        split at h
        · simp at h
        · simp only [Prod.mk.injEq, Option.some.injEq] at h
          refine ⟨?_, Or.inl h.2.symm⟩
          rw [← h.1]
          exact List.get_mem _ _ _
    · constructor
      · intro u h
        simp only [Prod.mk.injEq] at h
        exact absurd h.1 (by simp)
      · intro c u h
        simp only [Prod.mk.injEq, Option.some.injEq] at h
        have hmem : c ∈ countries.filter (fun c => !(used.contains c.cca2)) := by
          rw [← h.1]
          exact List.get_mem _ _ _
        have := List.mem_filter.mp hmem
        refine ⟨this.1, Or.inr ⟨h.2.symm, ?_⟩⟩
        have := this.2
        simpa using this

/-- `nextQuestion` establishes the invariant, provided the score already
fits the question counter without the answered-flag slack (as it does at
its two call sites). -/
theorem nextQuestion_inv (s : GameState) (r : Rand)
    (hscore : s.score ≤ s.currentQuestion)
    (hqt : s.currentQuestion ≤ s.totalQuestions)
    (hact : s.isGameActive = true → s.currentQuestion < s.totalQuestions)
    (hnd : s.usedCountries.Nodup)
    (hsub : s.usedCountries ⊆ s.countries.map Country.cca2) :
    Inv (nextQuestion s r) := by
  unfold nextQuestion
  split
  · unfold endGame Inv
    simp only [Bool.false_eq_true, false_implies, and_true, true_and]
    exact ⟨by split <;> omega, hqt, hnd, hsub⟩
  · rename_i hguard
    have hactive : s.isGameActive = true := by
      cases hA : s.isGameActive
      · rw [hA] at hguard
        simp at hguard
      · rfl
    dsimp only
    split
    · rename_i oc used1 heq
      have hused : used1 = s.usedCountries :=
        (getRandomUnusedCountry_spec s.countries s.usedCountries r.pick).1 used1 heq
      subst hused
      exact ⟨hscore.trans (Nat.le_add_right _ _), hqt, fun _ => hact hactive, hnd, hsub⟩
    · rename_i c used1 heq
      have hc := (getRandomUnusedCountry_spec s.countries s.usedCountries r.pick).2 c used1 heq
      have hnd1 : (used1 ++ [c.cca2]).Nodup := by
        rcases hc.2 with h1 | h1
        · subst h1
          simp
        · rw [h1.1]
          have hnotmem : c.cca2 ∉ s.usedCountries := by
            have h2 := h1.2
            simp only [List.contains, List.elem_eq_mem, decide_eq_false_iff_not] at h2
            exact h2
          simp [List.nodup_append, hnd, hnotmem]
      have hsub1 : (used1 ++ [c.cca2]) ⊆ s.countries.map Country.cca2 := by
        intro x hx
        rcases List.mem_append.mp hx with h1 | h1
        · rcases hc.2 with h2 | h2
          · subst h2
            simp at h1
          · rw [h2.1] at h1
            exact hsub h1
        · simp only [List.mem_singleton] at h1
          subst h1
          exact List.mem_map_of_mem Country.cca2 hc.1
      split
      · exact ⟨hscore.trans (Nat.le_add_right _ _), hqt, fun _ => hact hactive, hnd1, hsub1⟩
      · exact ⟨hscore.trans (Nat.le_add_right _ _), hqt, fun _ => hact hactive, hnd1, hsub1⟩

/-- `startGame` preserves the invariant on every path. -/
theorem startGame_inv (s : GameState) (d : String) (pool : List Country) (r : Rand)
    (h : Inv s) : Inv (startGame s d pool r).1 := by
  unfold startGame
  split
  · exact h
  · dsimp only
    split
    · unfold Inv resetGameState
      simp
    · apply nextQuestion_inv
      · simp [resetGameState]
      · simp [resetGameState]
      · intro _
        simp only [resetGameState]
        exact questionsCount_pos d
      · simp [resetGameState]
      · simp [resetGameState]

/-- `checkAnswer` preserves the invariant. -/
theorem checkAnswer_inv (s : GameState) (idx : Int) (h : Inv s) :
    Inv (checkAnswer s idx) := by
  unfold checkAnswer
  split
  · exact h
  · rename_i hguard
    have hans : s.isAnswered = false := by
      cases hA : s.isAnswered
      · rfl
      · rw [hA] at hguard
        simp at hguard
    obtain ⟨h1, h2, h3, h4, h5⟩ := h
    rw [hans] at h1
    simp only [Bool.false_eq_true, if_false] at h1
    dsimp only
    split
    · refine ⟨?_, h2, h3, h4, h5⟩
      show s.score + 1 ≤ s.currentQuestion + if true = true then 1 else 0
      rw [if_pos rfl]
      omega
    · refine ⟨?_, h2, h3, h4, h5⟩
      show s.score ≤ s.currentQuestion + if true = true then 1 else 0
      rw [if_pos rfl]
      omega

/-- The delayed advance preserves the invariant when it fires on the
just-answered question of an active session. -/
theorem advanceQuestion_inv (s : GameState) (r : Rand) (hans : s.isAnswered = true)
    (hact : s.isGameActive = true) (h : Inv s) : Inv (advanceQuestion s r) := by
  obtain ⟨h1, h2, h3, h4, h5⟩ := h
  rw [hans] at h1
  simp at h1
  have hlt := h3 hact
  unfold advanceQuestion
  dsimp only
  split
  · rename_i hbranch
    apply nextQuestion_inv
    · show s.score ≤ s.currentQuestion + 1
      omega
    · show s.currentQuestion + 1 ≤ s.totalQuestions
      omega
    · intro _
      simpa using hbranch
    · exact h4
    · exact h5
  · rename_i hbranch
    unfold endGame
    refine ⟨?_, ?_, ?_, h4, h5⟩
    · show s.score ≤ s.currentQuestion + 1 + if s.isAnswered = true then 1 else 0
      have : s.score ≤ s.currentQuestion + 1 := h1
      exact this.trans (Nat.le_add_right _ _)
    · show s.currentQuestion + 1 ≤ s.totalQuestions
      omega
    · intro hfalse
      simp at hfalse

/-- Every reachable state satisfies the invariant. -/
theorem reachable_inv (s : GameState) (h : Reachable s) : Inv s := by
  induction h with
  | init =>
    unfold Inv gameStateInit
    simp
  | start s d pool r _ ih => exact startGame_inv s d pool r ih
  | answer s idx _ ih => exact checkAnswer_inv s idx ih
  | advance s r _ hans hact ih => exact advanceQuestion_inv s r hans hact ih
  | restart s _ _ =>
    unfold Inv resetGameState
    simp


/-- C7: the progress percentage is `round (100 * questionIndex /
totalQuestions)` (0 when `totalQuestions = 0`), the mid-session display
accuracy is `round (100 * score / (questionIndex + 1))`, and the final
accuracy is `round (100 * score / questionIndex)` with the zero guard —
exactly these formulas, keeping the mid-session/final denominator
asymmetry. -/
theorem scoring_formulas (s : GameState) :
    calculateProgress s = (if s.totalQuestions = 0 then 0
      else round (100 * (s.currentQuestion : ℚ) / (s.totalQuestions : ℚ))) ∧
    calculateCurrentAccuracy s
      = round (100 * (s.score : ℚ) / ((s.currentQuestion : ℚ) + 1)) ∧
    calculateAccuracy s = (if s.currentQuestion = 0 then 0
      else round (100 * (s.score : ℚ) / (s.currentQuestion : ℚ))) := by
  refine ⟨?_, ?_, ?_⟩
  · unfold calculateProgress
    by_cases h : s.totalQuestions = 0
    · rw [if_pos h, if_pos h]
    · rw [if_neg h, if_neg h]
      congr 1
      ring
  · unfold calculateCurrentAccuracy
    dsimp only
    rw [if_neg (Nat.succ_ne_zero _)]
    congr 1
    push_cast
    ring
  · unfold calculateAccuracy
    by_cases h : s.currentQuestion = 0
    · rw [if_pos h, if_pos h]
    · rw [if_neg h, if_neg h]
      congr 1
      ring

/-- C3: when the session is active and unanswered, `checkAnswer` flips
the answered flag and adds 1 to the score exactly when the selected index
is the correct one, touching nothing else; when inactive or already
answered it is a no-op. -/
theorem checkAnswer_contract (s : GameState) (idx : Int) :
    (s.isGameActive = true → s.isAnswered = false →
      checkAnswer s idx
        = { s with
            isAnswered := true,
            score := s.score + (if idx = s.correctOptionIndex then 1 else 0) }) ∧
    (s.isGameActive = false ∨ s.isAnswered = true → checkAnswer s idx = s) := by
  constructor
  · intro hact hans
    unfold checkAnswer
    rw [hact, hans]
    simp only [Bool.not_true, Bool.or_false, Bool.false_eq_true, if_false]
    split
    · rfl
    · simp
  · intro h
    unfold checkAnswer
    rcases h with h | h
    · rw [h]
      simp
    · rw [h]
      simp

/-- Witness for C3: one active unanswered call (a correct answer scoring
a point) and one call on the idle initial state. -/
theorem checkAnswer_contract_witness :
    (checkAnswer (startGame gameStateInit ("advanced") pool4 rand0).1 3).score = 1 ∧
    checkAnswer gameStateInit 0 = gameStateInit := by
  constructor
  · have h := (checkAnswer_contract (startGame gameStateInit ("advanced") pool4 rand0).1 3).1
      (by decide) (by decide)
    rw [h]
    decide
  · exact (checkAnswer_contract gameStateInit 0).2 (Or.inl (by decide))

/-- C1 (amended): in every reachable session state the counters satisfy
`score ≤ questionIndex + 1` while an answer is pending advance and
`score ≤ questionIndex` otherwise, and always
`questionIndex ≤ totalQuestions` (`0 ≤ score` holds by the `Nat`
modelling: the score is only ever reset to 0 or incremented). -/
theorem session_counters_invariant (s : GameState) (h : Reachable s) :
    s.score ≤ s.currentQuestion + (if s.isAnswered then 1 else 0) ∧
    s.currentQuestion ≤ s.totalQuestions := by
  obtain ⟨h1, h2, _, _, _⟩ := reachable_inv s h
  exact ⟨h1, h2⟩

/-- Witness for C1: the invariant instantiated at the initial state. -/
theorem session_counters_invariant_witness :
    Reachable gameStateInit ∧
    gameStateInit.score ≤ gameStateInit.currentQuestion +
      (if gameStateInit.isAnswered then 1 else 0) ∧
    gameStateInit.currentQuestion ≤ gameStateInit.totalQuestions :=
  ⟨Reachable.init, session_counters_invariant gameStateInit Reachable.init⟩

/-- Counterexample for C1 as stated: after submitting the correct answer
to the first question — a reachable state, sitting in the interval before
the delayed advance fires — the score is strictly greater than the
question index, and the game's own `validateGameState` check rejects the
state. -/
theorem score_exceeds_questionIndex_between_answer_and_advance :
    Reachable (checkAnswer (startGame gameStateInit ("advanced") pool4 rand0).1
      (startGame gameStateInit ("advanced") pool4 rand0).1.correctOptionIndex) ∧
    (checkAnswer (startGame gameStateInit ("advanced") pool4 rand0).1
      (startGame gameStateInit ("advanced") pool4 rand0).1.correctOptionIndex).currentQuestion
      < (checkAnswer (startGame gameStateInit ("advanced") pool4 rand0).1
      (startGame gameStateInit ("advanced") pool4 rand0).1.correctOptionIndex).score ∧
    validateGameState (checkAnswer (startGame gameStateInit ("advanced") pool4 rand0).1
      (startGame gameStateInit ("advanced") pool4 rand0).1.correctOptionIndex) = false :=
  ⟨Reachable.answer _ _ (Reachable.start _ _ _ _ Reachable.init), by decide, by decide⟩

/-- C5: on a distinct-id pool of size at least `count + 1`, the distractor
generator returns exactly `count` records, none carrying the correct
country's id; they come from the pool minus the correct country minus the
used ids when that candidate set has at least `count` elements, and from
the pool minus the correct country alone otherwise. -/
theorem generateWrongAnswers_contract (correctCountry : Country)
    (allCountries : List Country) (count : Nat) (usedCountries : List String)
    (r : Nat → Nat) (hnd : (allCountries.map Country.cca2).Nodup)
    (hlen : count + 1 ≤ allCountries.length) :
    (CountryService.generateWrongAnswers correctCountry allCountries count
      usedCountries r).length = count ∧
    (∀ c ∈ CountryService.generateWrongAnswers correctCountry allCountries count
      usedCountries r, c.cca2 ≠ correctCountry.cca2) ∧
    (count ≤ (allCountries.filter (fun c =>
        c.cca2 != correctCountry.cca2 && !(usedCountries.contains c.cca2))).length →
      ∀ c ∈ CountryService.generateWrongAnswers correctCountry allCountries count
        usedCountries r,
        c ∈ allCountries.filter (fun c =>
          c.cca2 != correctCountry.cca2 && !(usedCountries.contains c.cca2))) ∧
    ((allCountries.filter (fun c =>
        c.cca2 != correctCountry.cca2 && !(usedCountries.contains c.cca2))).length
        < count →
      ∀ c ∈ CountryService.generateWrongAnswers correctCountry allCountries count
        usedCountries r,
        c ∈ allCountries.filter (fun c => c.cca2 != correctCountry.cca2)) := by
  obtain ⟨ha, hb, _, hd, he⟩ := CountryService.generateWrongAnswers_spec correctCountry
    allCountries count usedCountries r hnd hlen
  exact ⟨ha, hb, hd, he⟩

/-- Witness for C5: three distractors for `cA` from the four-country pool
with no used ids. -/
theorem generateWrongAnswers_contract_witness :
    (CountryService.generateWrongAnswers cA pool4 3 [] (fun _ => 0)).length = 3 ∧
    ∀ c ∈ CountryService.generateWrongAnswers cA pool4 3 [] (fun _ => 0),
      c.cca2 ≠ cA.cca2 := by
  have h := generateWrongAnswers_contract cA pool4 3 [] (fun _ => 0)
    (by decide) (by decide)
  exact ⟨h.1, h.2.1⟩

/-- C6: the used-id list of a reachable state never outgrows the pool,
and a question generation on an active in-range state whose pool ids are
all used wraps around: it clears the used list and ends with exactly the
newly chosen country's id recorded, the session still active. -/
theorem usedCountries_bound_and_wraparound :
    (∀ s : GameState, Reachable s → s.usedCountries.length ≤ s.countries.length) ∧
    (∀ (s : GameState) (r : Rand), s.isGameActive = true →
      s.currentQuestion < s.totalQuestions → s.countries ≠ [] →
      (∀ c ∈ s.countries, c.cca2 ∈ s.usedCountries) →
      ∃ c ∈ s.countries, (nextQuestion s r).currentCountry = some c ∧
        (nextQuestion s r).usedCountries = [c.cca2] ∧
        (nextQuestion s r).isGameActive = true) := by
  constructor
  · intro s h
    obtain ⟨_, _, _, h4, h5⟩ := reachable_inv s h
    have hle := (List.subperm_of_subset h4 h5).length_le
    simpa using hle
  · intro s r hact hlt hne hall
    have hlen0 : ¬ s.countries.length = 0 := by
      cases hcs : s.countries
      · exact absurd hcs hne
      · simp [hcs]
    have hguard : (!s.isGameActive || decide (s.totalQuestions ≤ s.currentQuestion))
        = false := by
      rw [hact]
      simp
      omega
    have hemp : s.countries.isEmpty = false := by
      cases hcs : s.countries
      · exact absurd hcs hne
      · rfl
    have hfilter : s.countries.filter (fun c => !(s.usedCountries.contains c.cca2)) = [] := by
      rw [List.filter_eq_nil_iff]
      intro c hc
      have hmem := hall c hc
      simp [List.contains, List.elem_eq_mem, hmem]
    have hgruc : getRandomUnusedCountry s.countries s.usedCountries r.pick
        = (some (s.countries.get
            ⟨r.pick % s.countries.length, Nat.mod_lt r.pick (Nat.pos_of_ne_zero hlen0)⟩),
           []) := by
      have h0 : (s.countries.filter (fun c => !(s.usedCountries.contains c.cca2))).length
          = 0 := by
        rw [hfilter]
        rfl
      unfold getRandomUnusedCountry
      rw [hemp]
      simp only [Bool.false_eq_true, if_false]
      rw [dif_pos h0]
      unfold CountryService.getRandomCountry
      rw [dif_neg hlen0]
    refine ⟨s.countries.get
      ⟨r.pick % s.countries.length, Nat.mod_lt r.pick (Nat.pos_of_ne_zero hlen0)⟩,
      List.get_mem _ _ _, ?_⟩
    unfold nextQuestion
    rw [hguard]
    simp only [Bool.false_eq_true, if_false]
    rw [hgruc]
    dsimp only
    split
    · exact ⟨rfl, by simp, hact⟩
    · exact ⟨rfl, by simp, hact⟩

/-- Witness for C6: the bound at the initial state, and the wrap-around
on an active state whose four-country pool is fully used. -/
theorem usedCountries_bound_and_wraparound_witness :
    gameStateInit.usedCountries.length ≤ gameStateInit.countries.length ∧
    (∃ c ∈ sAllUsed.countries,
      (nextQuestion sAllUsed rand0).currentCountry = some c ∧
      (nextQuestion sAllUsed rand0).usedCountries = [c.cca2] ∧
      (nextQuestion sAllUsed rand0).isGameActive = true) := by
  constructor
  · exact usedCountries_bound_and_wraparound.1 gameStateInit Reachable.init
  · exact usedCountries_bound_and_wraparound.2 sAllUsed rand0
      (by decide) (by decide) (by decide) (by decide)

/-- C4: on a distinct-id candidate pool of at least 4 records, every
generated question has exactly 4 options with pairwise-distinct ids
containing the correct country exactly once, and the recomputed
post-shuffle index points at the entry carrying the correct country's
id. -/
theorem generateAnswerOptions_spec (correctCountry : Country)
    (allCountries : List Country) (usedCountries : List String) (r1 r2 : Nat → Nat)
    (hnd : (allCountries.map Country.cca2).Nodup)
    (hlen : 4 ≤ allCountries.length) :
    ∃ opts idx, generateAnswerOptions correctCountry allCountries usedCountries r1 r2
        = some (opts, idx) ∧
      opts.length = 4 ∧
      (opts.map Country.cca2).Nodup ∧
      opts.count correctCountry = 1 ∧
      ∃ h : idx.toNat < opts.length,
        idx = (idx.toNat : Int) ∧ (opts.get ⟨idx.toNat, h⟩).cca2 = correctCountry.cca2 := by
  obtain ⟨hw3, hwne, hwnd, _, _⟩ := CountryService.generateWrongAnswers_spec correctCountry
    allCountries 3 usedCountries r1 hnd (by omega)
  set wrong := CountryService.generateWrongAnswers correctCountry allCountries 3
    usedCountries r1 with hwrong
  have hmain : generateAnswerOptions correctCountry allCountries usedCountries r1 r2
      = some (shuffleArray (correctCountry :: wrong) r2,
          findIndexJS (fun c => c.cca2 == correctCountry.cca2)
            (shuffleArray (correctCountry :: wrong) r2)) := by
    unfold generateAnswerOptions
    rw [if_neg (by omega)]
    rw [← hwrong]
    rw [if_neg (by omega)]
  set sh := shuffleArray (correctCountry :: wrong) r2 with hsh
  have hperm : sh.Perm (correctCountry :: wrong) := shuffleArray_perm _ _
  have hlen4 : sh.length = 4 := by
    rw [hperm.length_eq]
    simp [hw3]
  have hndopts : ((correctCountry :: wrong).map Country.cca2).Nodup := by
    simp only [List.map_cons, List.nodup_cons]
    refine ⟨?_, hwnd⟩
    intro hmem
    obtain ⟨c, hc, hceq⟩ := List.mem_map.mp hmem
    exact (hwne c hc) hceq
  have hshnd : (sh.map Country.cca2).Nodup := (hperm.map Country.cca2).nodup_iff.mpr hndopts
  have hcount : sh.count correctCountry = 1 := by
    rw [hperm.count_eq, List.count_cons_self]
    have hzero : wrong.count correctCountry = 0 := by
      rw [List.count_eq_zero]
      intro hmem
      exact (hwne correctCountry hmem) rfl
    omega
  have hmem : correctCountry ∈ sh := hperm.mem_iff.mpr (List.mem_cons_self _ _)
  have hex : ∃ x ∈ sh, (fun c => c.cca2 == correctCountry.cca2) x :=
    ⟨correctCountry, hmem, by simp⟩
  have hflt : sh.findIdx (fun c => c.cca2 == correctCountry.cca2) < sh.length :=
    List.findIdx_lt_length_of_exists hex
  refine ⟨sh, _, hmain, hlen4, hshnd, hcount, ?_⟩
  unfold findIndexJS
  rw [if_pos hflt]
  refine ⟨by simpa using hflt, by simp, ?_⟩
  have hp := @List.findIdx_getElem Country (fun c => c.cca2 == correctCountry.cca2) sh hflt
  simpa using hp

/-- Witness for C4: a question for `cA` from the four-country pool. -/
theorem generateAnswerOptions_spec_witness :
    ∃ opts idx,
      generateAnswerOptions cA pool4 [] (fun _ => 0) (fun _ => 0) = some (opts, idx) ∧
      opts.length = 4 ∧
      (opts.map Country.cca2).Nodup ∧
      opts.count cA = 1 ∧
      ∃ h : idx.toNat < opts.length,
        idx = (idx.toNat : Int) ∧ (opts.get ⟨idx.toNat, h⟩).cca2 = cA.cca2 :=
  generateAnswerOptions_spec cA pool4 [] (fun _ => 0) (fun _ => 0) (by decide) (by decide)

/-- Counterexample for C2 as stated: starting from the pristine initial
state with a valid difficulty and a three-country pool fails with
`InsufficientPool`, but the session state is not left exactly as it was:
the reset plus the difficulty/questionCount/pool writes that precede the
pool-size check stick. -/
theorem startGame_insufficientPool_mutates_state :
    (startGame gameStateInit ("advanced") pool3 rand0).2
      = some GameError.insufficientPool ∧
    (startGame gameStateInit ("advanced") pool3 rand0).1 ≠ gameStateInit := by
  constructor
  · decide
  · decide

/-- C2 (amended): with a valid difficulty and a filtered pool smaller
than 4, `startGame` fails with `InsufficientPool` and never activates the
session — but the state has been reset and its difficulty, question count
and pool fields updated; only the inactivity part of the no-mutation
claim survives. -/
theorem startGame_insufficientPool (s : GameState) (d : String) (pool : List Country)
    (r : Rand)
    (hd : (["beginner", "intermediate", "advanced"] : List String).contains d = true)
    (hlen : (CountryService.getCountriesByDifficulty pool d).length < 4) :
    (startGame s d pool r).2 = some GameError.insufficientPool ∧
    (startGame s d pool r).1.isGameActive = false ∧
    (startGame s d pool r).1
      = { resetGameState with
          difficulty := d,
          totalQuestions := (getDifficultyConfig d).questionsCount,
          countries := CountryService.getCountriesByDifficulty pool d } := by
  unfold startGame
  rw [hd]
  simp only [Bool.not_true, Bool.false_eq_true, if_false]
  split
  · exact ⟨rfl, rfl, rfl⟩
  · rename_i hcon
    exact absurd hlen hcon

/-- Witness for C2: the amended statement at the three-country pool. -/
theorem startGame_insufficientPool_witness :
    (startGame gameStateInit ("advanced") pool3 rand0).2
      = some GameError.insufficientPool ∧
    (startGame gameStateInit ("advanced") pool3 rand0).1.isGameActive = false := by
  have h := startGame_insufficientPool gameStateInit ("advanced") pool3 rand0
    (by decide) (by decide)
  exact ⟨h.1, h.2.1⟩

/-- Evaluation of pool construction at the literal beginner tier. -/
theorem gcbd_beginner (pool : List Country) :
    CountryService.getCountriesByDifficulty pool ("beginner")
      = (if pool.isEmpty then []
         else if 25 < ((pool.filter (fun c =>
               (["Europe", "Americas"] : List String).contains c.region)).mergeSort
                 (fun a b => decide (b.population ≤ a.population))).length then
           ((pool.filter (fun c =>
               (["Europe", "Americas"] : List String).contains c.region)).mergeSort
                 (fun a b => decide (b.population ≤ a.population))).take 25
         else (pool.filter (fun c =>
               (["Europe", "Americas"] : List String).contains c.region)).mergeSort
                 (fun a b => decide (b.population ≤ a.population))) := by
  unfold CountryService.getCountriesByDifficulty CountryService.DIFFICULTY_CONFIG
  simp

/-- Evaluation of pool construction at the literal intermediate tier. -/
theorem gcbd_intermediate (pool : List Country) :
    CountryService.getCountriesByDifficulty pool ("intermediate")
      = (if pool.isEmpty then []
         else if 60 < ((pool.filter (fun c =>
               (["Europe", "Asia", "Americas", "Oceania"] : List String).contains
                 c.region)).mergeSort
                 (fun a b => decide (b.population ≤ a.population))).length then
           ((pool.filter (fun c =>
               (["Europe", "Asia", "Americas", "Oceania"] : List String).contains
                 c.region)).mergeSort
                 (fun a b => decide (b.population ≤ a.population))).take 60
         else (pool.filter (fun c =>
               (["Europe", "Asia", "Americas", "Oceania"] : List String).contains
                 c.region)).mergeSort
                 (fun a b => decide (b.population ≤ a.population))) := by
  unfold CountryService.getCountriesByDifficulty CountryService.DIFFICULTY_CONFIG
  simp

/-- Evaluation of pool construction at the literal advanced tier: no
region filter and, notably, no sort. -/
theorem gcbd_advanced (pool : List Country) :
    CountryService.getCountriesByDifficulty pool ("advanced")
      = (if pool.isEmpty then []
         else if 150 < pool.length then pool.take 150 else pool) := by
  unfold CountryService.getCountriesByDifficulty CountryService.DIFFICULTY_CONFIG
  simp

/-- The descending-population comparison is transitive. -/
theorem popDesc_trans (a b c : Country) :
    decide (b.population ≤ a.population) = true →
    decide (c.population ≤ b.population) = true →
    decide (c.population ≤ a.population) = true := by
  simp only [decide_eq_true_eq]
  omega

/-- The descending-population comparison is total. -/
theorem popDesc_total (a b : Country) :
    (decide (b.population ≤ a.population) || decide (a.population ≤ b.population))
      = true := by
  rcases Nat.le_total b.population a.population with h | h <;> simp [h]

/-- The stable merge sort used for pools orders by non-increasing
population. -/
theorem mergeSort_popDesc_sorted (l : List Country) :
    (l.mergeSort (fun a b => decide (b.population ≤ a.population))).Pairwise
      (fun a b => b.population ≤ a.population) := by
  have h := @List.sorted_mergeSort Country
    (fun a b : Country => decide (b.population ≤ a.population))
    popDesc_trans popDesc_total l
  exact h.imp (fun hab => by simpa using hab)

/-- The pool sort is stable: the records carrying any one population
value form, in their original order, a sublist of the sorted output. -/
theorem mergeSort_popDesc_stable (l : List Country) (p : Nat) :
    (l.filter (fun c => c.population = p)).Sublist
      (l.mergeSort (fun a b => decide (b.population ≤ a.population))) := by
  apply List.sublist_mergeSort popDesc_trans popDesc_total
  · apply List.pairwise_of_forall_mem_list
    intro a ha b hb
    have ha2 := (List.mem_filter.mp ha).2
    have hb2 := (List.mem_filter.mp hb).2
    simp only [decide_eq_true_eq] at ha2 hb2 ⊢
    omega
  · exact List.filter_sublist l

/-- Counterexample for C8 as stated: with the two-country pool
`[cA, cB]` (populations 1 and 2), an unknown difficulty resolves to the
beginner configuration but skips the population sort, so the resulting
pool differs from the beginner pool on the same input. -/
theorem unknown_difficulty_pool_not_beginner_pool :
    CountryService.getCountriesByDifficulty [cA, cB] ("mystery")
      ≠ CountryService.getCountriesByDifficulty [cA, cB] ("beginner") := by
  have h1 : CountryService.getCountriesByDifficulty [cA, cB] ("mystery") = [cA, cB] := by
    decide
  have h2 : CountryService.getCountriesByDifficulty [cA, cB] ("beginner") = [cB, cA] := by
    simp [CountryService.getCountriesByDifficulty, CountryService.DIFFICULTY_CONFIG,
      CountryService.beginnerConfig, List.mergeSort, List.merge, cA, cB]
  rw [h1, h2]
  decide

/-- C8 (amended): an unknown difficulty string resolves — in both
difficulty tables — to the beginner configuration, and the pool is
filtered with beginner's regions and truncated to beginner's cap, but the
population sort is skipped (it only runs for the literal strings beginner
and intermediate), so the pool keeps the filtered input order instead of
beginner's sorted order. -/
theorem unknown_difficulty_fallback (d : String) (pool : List Country)
    (h1 : d ≠ "beginner") (h2 : d ≠ "intermediate") (h3 : d ≠ "advanced") :
    getDifficultyConfig d = getDifficultyConfig ("beginner") ∧
    (CountryService.DIFFICULTY_CONFIG d).getD CountryService.beginnerConfig
      = (CountryService.DIFFICULTY_CONFIG ("beginner")).getD
          CountryService.beginnerConfig ∧
    CountryService.getCountriesByDifficulty pool d
      = (if pool.isEmpty then []
         else if 25 < (pool.filter (fun c =>
               (["Europe", "Americas"] : List String).contains c.region)).length then
           (pool.filter (fun c =>
               (["Europe", "Americas"] : List String).contains c.region)).take 25
         else pool.filter (fun c =>
               (["Europe", "Americas"] : List String).contains c.region)) := by
  have hcfg : CountryService.DIFFICULTY_CONFIG d = none := by
    unfold CountryService.DIFFICULTY_CONFIG
    rw [if_neg h1, if_neg h2, if_neg h3]
  refine ⟨?_, ?_, ?_⟩
  · unfold getDifficultyConfig DIFFICULTY_CONFIG
    rw [if_neg h1, if_neg h2, if_neg h3]
    decide
  · rw [hcfg]
    decide
  · unfold CountryService.getCountriesByDifficulty CountryService.DIFFICULTY_CONFIG
      CountryService.beginnerConfig
    simp [h1, h2, h3]

/-- Witness for C8: the amended statement at the unknown difficulty
string and the four-country pool. -/
theorem unknown_difficulty_fallback_witness :
    getDifficultyConfig ("mystery") = getDifficultyConfig ("beginner") ∧
    CountryService.getCountriesByDifficulty pool4 ("mystery")
      = (if pool4.isEmpty then []
         else if 25 < (pool4.filter (fun c =>
               (["Europe", "Americas"] : List String).contains c.region)).length then
           (pool4.filter (fun c =>
               (["Europe", "Americas"] : List String).contains c.region)).take 25
         else pool4.filter (fun c =>
               (["Europe", "Americas"] : List String).contains c.region)) := by
  have h := unknown_difficulty_fallback ("mystery") pool4 (by decide) (by decide) (by decide)
  exact ⟨h.1, h.2.2⟩

/-- Counterexample for C9 as stated: the advanced tier does not sort — on
the pool `[cA, cB]` with ascending populations the result keeps the input
order, which is not descending by population. -/
theorem advanced_pool_not_population_sorted :
    ¬ (CountryService.getCountriesByDifficulty [cA, cB] ("advanced")).Pairwise
        (fun a b => b.population ≤ a.population) := by
  decide

/-- C9 (amended): for the beginner and intermediate tiers, pool
construction is exactly the spec's filter-to-regions, stable
descending-population sort, truncate-to-cap pipeline (`specSortedPool`):
the results are in non-increasing population order and the sort keeps
equal-population records in their input order; the advanced tier is
truncated in input order without any sort. -/
theorem pool_sorting_by_tier (pool : List Country) :
    CountryService.getCountriesByDifficulty pool ("beginner")
      = specSortedPool pool ["Europe", "Americas"] 25 ∧
    CountryService.getCountriesByDifficulty pool ("intermediate")
      = specSortedPool pool ["Europe", "Asia", "Americas", "Oceania"] 60 ∧
    (CountryService.getCountriesByDifficulty pool ("beginner")).Pairwise
      (fun a b => b.population ≤ a.population) ∧
    (CountryService.getCountriesByDifficulty pool ("intermediate")).Pairwise
      (fun a b => b.population ≤ a.population) ∧
    (∀ (p : Nat) (regions : List String),
      ((pool.filter (fun c => regions.contains c.region)).filter
          (fun c => c.population = p)).Sublist
        ((pool.filter (fun c => regions.contains c.region)).mergeSort
          (fun a b => decide (b.population ≤ a.population)))) ∧
    CountryService.getCountriesByDifficulty pool ("advanced")
      = (if 150 < pool.length then pool.take 150 else pool) := by
  refine ⟨?_, ?_, ?_, ?_, ?_, ?_⟩
  · rw [gcbd_beginner]
    unfold specSortedPool
    split
    · rename_i hemp
      have hnil : pool = [] := List.isEmpty_iff.mp hemp
      subst hnil
      simp
    · rfl
  · rw [gcbd_intermediate]
    unfold specSortedPool
    split
    · rename_i hemp
      have hnil : pool = [] := List.isEmpty_iff.mp hemp
      subst hnil
      simp
    · rfl
  · rw [gcbd_beginner]
    split
    · exact List.Pairwise.nil
    · split
      · exact (mergeSort_popDesc_sorted _).sublist (List.take_sublist _ _)
      · exact mergeSort_popDesc_sorted _
  · rw [gcbd_intermediate]
    split
    · exact List.Pairwise.nil
    · split
      · exact (mergeSort_popDesc_sorted _).sublist (List.take_sublist _ _)
      · exact mergeSort_popDesc_sorted _
  · intro p regions
    exact mergeSort_popDesc_stable _ p
  · rw [gcbd_advanced]
    split
    · rename_i hemp
      have hnil : pool = [] := List.isEmpty_iff.mp hemp
      subst hnil
      simp
    · rfl

/-- C10: the Fisher–Yates shuffle returns a permutation of its input
(the JS function works on a spread copy, so the input array itself is
never mutated; the embedding is pure), hence option shuffling and
distractor shuffling preserve the multiset of candidate records. -/
theorem shuffleArray_permutes (l : List α) (r : Nat → Nat) :
    (shuffleArray l r).Perm l :=
  shuffleArray_perm l r

end GameJs

end Kokki
